import Mathlib

/-!
Verification of the autobackup plugin core (`src/main.py`) against its
natural-language specification.

The Python source is shallowly embedded below:

* string helpers model `str.startswith`, `pathlib.PurePath.suffix` and
  `PurePath.parts` (for relative POSIX-style paths, which is what the code
  passes in);
* `FSTree` models the directory tree rooted at `astrbot_path`; `walkEntries`
  models the `os.walk` loop of `_create_backup` with in-place filtering of
  `dirs` (line 104), so an excluded directory is never descended into;
* `backup_entries` models the per-file skip conditions (lines 106-116);
* `generate_backup_filename`, `should_exclude`, `cleanup_old_backups`,
  `create_backup` and the scheduler-loop functions each embed the
  correspondingly named Python method.
-/

/-- Model of Python `str.startswith`, on character lists. -/
def listIsPre : List Char → List Char → Bool
  | [], _ => true
  | _ :: _, [] => false
  | a :: as, b :: bs => a = b && listIsPre as bs

/-- Distance from the head of the list to the first `'.'` (used on a
reversed character list it is the distance from the END of a file name to
its LAST dot, i.e. the quantity `len(name) - 1 - name.rfind('.')`). -/
def revDotDist : List Char → Option Nat
  | [] => none
  | c :: cs => if c = '.' then some 0 else (revDotDist cs).map (· + 1)

/-- Model of Python `pathlib.PurePath.suffix` on a final path component:
`name[i:]` for `i = name.rfind('.')` when `0 < i < len(name) - 1`, else the
empty string. -/
def fileSuffix (name : String) : String :=
  match revDotDist name.toList.reverse with
  | none => ""
  | some r =>
    if 0 < name.toList.length - 1 - r ∧ 0 < r then
      String.mk (name.toList.drop (name.toList.length - 1 - r))
    else ""

/-- Split a character list at `'/'` (helper for `path_parts`). -/
def splitOnSlash : List Char → List (List Char)
  | [] => [[]]
  | c :: cs =>
    let r := splitOnSlash cs
    if c = '/' then [] :: r
    else
      match r with
      | [] => [[c]]
      | p :: ps => (c :: p) :: ps

/-- Model of `pathlib.Path(path).parts` for a relative POSIX path: the
nonempty, non-`"."` components between separators.  `_should_exclude` is
only ever called on bare directory names produced by `os.walk`, for which
this is exact. -/
def path_parts (p : String) : List String :=
  ((splitOnSlash p.toList).map (fun cs => String.mk cs)).filter
    (fun s => decide (s ≠ "" ∧ s ≠ "."))

/-- The default `exclude_dirs` list of `_should_exclude` (line 77); the call
site in `_create_backup` passes no explicit list, so this is the configured
exclusion-directory set. -/
def default_exclude_dirs : List String := [".venv", "__pycache__", ".git", "node_modules"]

/-- Model of `_should_exclude(path)` (lines 74-84): true iff some part of
the path is in the exclusion-directory list. -/
def should_exclude (path : String) : Bool :=
  (path_parts path).any (fun part => decide (part ∈ default_exclude_dirs))

/-- A directory tree: name, immediate subdirectories, and names of the
files directly inside it.  Models the filesystem under `astrbot_path`. -/
inductive FSTree where
  | dir (name : String) (subs : List FSTree) (files : List String)

/-- The name of a directory node. -/
def FSTree.name : FSTree → String
  | .dir n _ _ => n

/-- An archive entry: the directory components of `file_path.relative_to(astrbot_path)`
followed by the file name (the `arcname` of line 115). -/
abbrev ArcEntry := List String × String

mutual

/-- Model of the `os.walk(self.astrbot_path)` loop (lines 102-104): the
files yielded for the current directory, then the walk of the surviving
subdirectories.  `dirs[:] = [d for d in dirs if not self._should_exclude(d)]`
is modelled by `walkSubs` skipping (never recursing into) an excluded
subdirectory. -/
def walkEntries : FSTree → List ArcEntry
  | .dir _ subs files => files.map (fun f => ([], f)) ++ walkSubs subs

/-- The walk of a list of subdirectories, filtering excluded names BEFORE
descending. -/
def walkSubs : List FSTree → List ArcEntry
  | [] => []
  | t :: ts =>
    (if should_exclude t.name then []
     else (walkEntries t).map (fun e => (t.name :: e.1, e.2))) ++ walkSubs ts

end

/-- The excluded file suffixes of line 109. -/
def excluded_suffixes : List String := [".pyc", ".log", ".tmp"]

/-- Model of the test on line 112: the file name matches the backup naming
convention (`startswith('astrbot_backup_')` and `suffix == '.zip'`). -/
def matches_backup_name (name : String) : Bool :=
  listIsPre "astrbot_backup_".toList name.toList && fileSuffix name == ".zip"

/-- The entries written into the produced archive (lines 102-116): every
walked file except those with an excluded suffix (line 109) and those
matching the backup naming convention (line 112). -/
def backup_entries (t : FSTree) : List ArcEntry :=
  (walkEntries t).filter (fun e =>
    !(decide (fileSuffix e.2 ∈ excluded_suffixes)) && !(matches_backup_name e.2))

/-- A wall-clock instant at second granularity, as consumed by
`datetime.now().strftime("%Y%m%d_%H%M%S")`. -/
structure DateTime6 where
  year : Nat
  month : Nat
  day : Nat
  hour : Nat
  minute : Nat
  second : Nat

/-- Zero-pad to two digits (strftime `%m`, `%d`, `%H`, `%M`, `%S`). -/
def pad2 (n : Nat) : String := if n < 10 then "0" ++ toString n else toString n

/-- Zero-pad to four digits (strftime `%Y`). -/
def pad4 (n : Nat) : String :=
  if n < 10 then "000" ++ toString n
  else if n < 100 then "00" ++ toString n
  else if n < 1000 then "0" ++ toString n
  else toString n

/-- Model of `datetime.strftime("%Y%m%d_%H%M%S")` (line 71). -/
def strftime_ts (d : DateTime6) : String :=
  pad4 d.year ++ pad2 d.month ++ pad2 d.day ++ "_" ++ pad2 d.hour ++ pad2 d.minute ++ pad2 d.second

/-- Model of `_generate_backup_filename` (lines 69-72). -/
def generate_backup_filename (d : DateTime6) : String :=
  "astrbot_backup_" ++ strftime_ts d ++ ".zip"

/-- A file in the backup directory: its name and its `st_mtime`. -/
structure BFile where
  name : String
  mtime : Nat
deriving DecidableEq

/-- Model of the glob pattern `"astrbot_backup_*.zip"` (line 148) on a file
name: the literal head `astrbot_backup_`, then anything, then the literal
tail `.zip`.  The length bound keeps head and tail from overlapping. -/
def globMatch (name : String) : Bool :=
  listIsPre "astrbot_backup_".toList name.toList &&
  listIsPre ".zip".toList.reverse name.toList.reverse &&
  decide (19 ≤ name.toList.length)

/-- The comparison of line 151: `a` sorts no later than `b` when `a`'s
modification time is at least `b`'s (descending by `st_mtime`). -/
def mtimeGe (a b : BFile) : Prop := b.mtime ≤ a.mtime

instance : DecidableRel mtimeGe := fun a b => Nat.decLe b.mtime a.mtime

instance : IsTotal BFile mtimeGe := ⟨fun a b => Nat.le_total b.mtime a.mtime⟩

instance : IsTrans BFile mtimeGe := ⟨fun _ _ _ hab hbc => Nat.le_trans hbc hab⟩

/-- Model of `backup_files.sort(key=lambda x: x.stat().st_mtime, reverse=True)`
(line 151): a sort descending by modification time.  For files with pairwise
distinct modification times — the only case the specification constrains —
every correct descending sort produces the same list as CPython's. -/
def sort_desc (fs : List BFile) : List BFile := List.insertionSort mtimeGe fs

/-- Model of `_cleanup_old_backups` (lines 140-163).  `dirFiles` is the
listing of the backup directory; the first component of the result is the
sequence of files unlinked by the loop on lines 155-157 (in loop order); the
second component is the value the Python function returns — it has no
`return expr` statement, so it always returns `None`. -/
def cleanup_old_backups (maxBackups : ℤ) (dirFiles : List BFile) :
    List BFile × Option (List String) :=
  if maxBackups ≤ 0 then ([], none)
  else
    let sorted := sort_desc (dirFiles.filter (fun f => globMatch f.name))
    if maxBackups < (sorted.length : ℤ) then (sorted.drop maxBackups.toNat, none)
    else ([], none)

/-- Model of the dict returned by `_create_backup` (lines 126-131 on
success, 135-138 on failure); an absent key is `none`.  `size_mb` is the
value `round(file_size / (1024 * 1024), 2)`. -/
structure BackupResult where
  success : Bool
  path : Option String
  size_mb : Option ℚ
  filename : Option String
  error : Option String
deriving DecidableEq

/-- Round-half-to-even to an integer, the rounding Python's `round` uses
(exact on the dyadic values arising in the theorems below). -/
def roundHalfEven (q : ℚ) : ℤ :=
  if q - ⌊q⌋ < 1 / 2 then ⌊q⌋
  else if (1 : ℚ) / 2 < q - ⌊q⌋ then ⌊q⌋ + 1
  else if ⌊q⌋ % 2 = 0 then ⌊q⌋ else ⌊q⌋ + 1

/-- Model of Python `round(x, 2)`. -/
def round2 (q : ℚ) : ℚ := (roundHalfEven (q * 100) : ℚ) / 100

/-- Where, if anywhere, an exception is raised inside the `try` block of
`_create_backup`: before the `zipfile.ZipFile(...)` call creates the
archive file (filename generation, `mkdir`), during the walk/write loop
after `k` entries have been written, or at the `backup_file.stat()` call.
The string is `str(e)`. -/
inductive FailPoint where
  | beforeZip (msg : String)
  | duringWrite (k : Nat) (msg : String)
  | atStat (msg : String)
deriving DecidableEq

/-- The `str(e)` message of a failure point. -/
def FailPoint.msg : FailPoint → String
  | .beforeZip m => m
  | .duringWrite _ m => m
  | .atStat m => m

/-- One invocation of `_create_backup`: the tree under `astrbot_path`, the
current time, the resolved backup directory and its current listing, the
`st_mtime` and `st_size` the new archive would get, the `max_backups`
configuration value, and the injected failure (if any). -/
structure BuildInput where
  tree : FSTree
  ts : DateTime6
  backupDir : String
  dirFiles : List BFile
  newMtime : Nat
  archSize : Nat
  maxBackups : ℤ
  failure : Option FailPoint

/-- The observable outcome of `_create_backup`: the returned dict, the
entries written into the zip, the old archives unlinked by
`_cleanup_old_backups`, and whether the (possibly half-written) archive
file exists on disk after the call returns. -/
structure BuildOutput where
  result : BackupResult
  written : List ArcEntry
  deletedOld : List BFile
  archiveAfter : Bool

/-- The failure dict of lines 135-138. -/
def failResult (msg : String) : BackupResult :=
  { success := false, path := none, size_mb := none, filename := none, error := some msg }

/-- Model of `_create_backup` (lines 86-138).  On success it writes all of
`backup_entries`, stats the archive, runs `_cleanup_old_backups` on the
backup directory (which now also contains the new archive), and returns the
success dict.  On an exception the `except` branch (lines 133-138) only
logs and returns the failure dict: nothing is unlinked and the archive
file, if it was created, stays on disk. -/
def create_backup (inp : BuildInput) : BuildOutput :=
  let fn := generate_backup_filename inp.ts
  let entries := backup_entries inp.tree
  match inp.failure with
  | some (.beforeZip m) =>
    { result := failResult m, written := [], deletedOld := [], archiveAfter := false }
  | some (.duringWrite k m) =>
    { result := failResult m, written := entries.take k, deletedOld := [], archiveAfter := true }
  | some (.atStat m) =>
    { result := failResult m, written := entries, deletedOld := [], archiveAfter := true }
  | none =>
    let mb := round2 ((inp.archSize : ℚ) / (1024 * 1024))
    let deleted := (cleanup_old_backups inp.maxBackups (inp.dirFiles ++ [⟨fn, inp.newMtime⟩])).1
    { result :=
        { success := true, path := some (inp.backupDir ++ "/" ++ fn), size_mb := some mb,
          filename := some fn, error := none },
      written := entries, deletedOld := deleted, archiveAfter := true }

/-- Observable events of `_scheduled_backup_task`: an `asyncio.sleep` of
the given number of seconds, or one backup execution (line 192). -/
inductive SchedEvent where
  | slept (secs : Nat)
  | ranBackup
deriving DecidableEq

/-- Total seconds slept in a trace of scheduler events. -/
def sumSleep : List SchedEvent → Nat
  | [] => 0
  | SchedEvent.slept s :: es => s + sumSleep es
  | SchedEvent.ranBackup :: es => sumSleep es

/-- Model of the for-loop on lines 182-185: `n` remaining 60-second
chunks, `k` the index of the next stop-flag check, `stop` the value the
flag reads at each check.  Returns the sleep events and whether the loop
`break`-ed because the flag was set. -/
def waitChunks (stop : Nat → Bool) (k : Nat) : Nat → List SchedEvent × Bool
  | 0 => ([], false)
  | n + 1 =>
    if stop k then ([], true)
    else (SchedEvent.slept 60 :: (waitChunks stop (k + 1) n).1, (waitChunks stop (k + 1) n).2)

/-- Model of the waiting phase, lines 179-188, for `wait_seconds = w > 0`:
`int(wait_seconds / 60)` sixty-second sleeps each preceded by a stop check,
then one more stop check (lines 186-187, whose `break` exits the while
loop), then a final sleep of `wait_seconds % 60`.  Returns the sleep events
and whether the phase exited via `break`. -/
def waitPhase (w : Nat) (stop : Nat → Bool) : List SchedEvent × Bool :=
  if (waitChunks stop 0 (w / 60)).2 then ((waitChunks stop 0 (w / 60)).1, true)
  else if stop (w / 60) then ((waitChunks stop 0 (w / 60)).1, true)
  else ((waitChunks stop 0 (w / 60)).1 ++ [SchedEvent.slept (w % 60)], false)

/-- The environment one iteration of the while loop (lines 170-204) runs
in: the stop flag at the top-of-loop check, the result of the croniter
computation (`none` models `croniter(...)`/`get_next` raising, `some w`
a computed wait of `w` seconds), and the stop flag at the checks inside the
waiting phase. -/
structure IterEnv where
  stopAtTop : Bool
  cron : Option Nat
  stopInWait : Nat → Bool

/-- Model of the `while not self._stop_backup` loop of
`_scheduled_backup_task` (lines 170-204), run for `fuel` iterations with
per-iteration environments `env`.  Returns the event trace and `true` iff
the loop exited (by the while condition or a `break`) within `fuel`
iterations.  A croniter failure lands in the `except` branch (lines
201-204): sleep 3600 seconds, then continue looping. -/
def scheduler_loop (env : Nat → IterEnv) : Nat → Nat → List SchedEvent × Bool
  | _, 0 => ([], false)
  | i, fuel + 1 =>
    let e := env i
    if e.stopAtTop then ([], true)
    else
      match e.cron with
      | none =>
        let r := scheduler_loop env (i + 1) fuel
        (.slept 3600 :: r.1, r.2)
      | some w =>
        let wait := if 0 < w then waitPhase w e.stopInWait else ([], false)
        if wait.2 then (wait.1, true)
        else
          let r := scheduler_loop env (i + 1) fuel
          (wait.1 ++ .ranBackup :: r.1, r.2)

/-- Concrete instance of the tree from the spec's scenario: root `app`
holding `main.bin` and `cache.log`, with a `.venv` subdirectory holding
`lib.so`. -/
def exTreeC1 : FSTree :=
  FSTree.dir "app" [FSTree.dir ".venv" [] ["lib.so"]] ["main.bin", "cache.log"]

/-- A small concrete tree for the C2 witness. -/
def exTreeC2 : FSTree := FSTree.dir "app" [] ["data.bin"]

/-- Three convention-named files with distinct modification times, for the
C3 witness. -/
def exFilesC3 : List BFile :=
  [⟨"astrbot_backup_20250101_000000.zip", 10⟩,
   ⟨"astrbot_backup_20250102_000000.zip", 30⟩,
   ⟨"astrbot_backup_20250103_000000.zip", 20⟩]

/-- Seven convention-named files with distinct modification times, in
scrambled directory-listing order (the spec's retention scenario). -/
def exFilesC7 : List BFile :=
  [⟨"astrbot_backup_20250103_000000.zip", 3⟩,
   ⟨"astrbot_backup_20250101_000000.zip", 1⟩,
   ⟨"astrbot_backup_20250107_000000.zip", 7⟩,
   ⟨"astrbot_backup_20250105_000000.zip", 5⟩,
   ⟨"astrbot_backup_20250102_000000.zip", 2⟩,
   ⟨"astrbot_backup_20250106_000000.zip", 6⟩,
   ⟨"astrbot_backup_20250104_000000.zip", 4⟩]

/-- The failing invocation used to refute C5: an exception (`No space left
on device`) strikes after one entry has been written, so a half-written
archive file exists on disk. -/
def exInputC5 : BuildInput :=
  { tree := FSTree.dir "app" [] ["a.bin", "b.bin"], ts := ⟨2025, 1, 2, 3, 4, 5⟩,
    backupDir := "/backups", dirFiles := [], newMtime := 100, archSize := 0,
    maxBackups := 5, failure := some (.duringWrite 1 "No space left on device") }

/-- A successful invocation whose archive stats at 1572864 bytes. -/
def exInputC6 : BuildInput :=
  { tree := FSTree.dir "app" [] [], ts := ⟨2025, 1, 2, 3, 4, 5⟩, backupDir := "/b",
    dirFiles := [], newMtime := 1, archSize := 1572864, maxBackups := 5, failure := none }

/-- A failing invocation over a destination directory holding two old
archives and a cap of 1: a successful run would have pruned, a failing one
must not. -/
def exInputC10 : BuildInput :=
  { tree := FSTree.dir "app" [] ["a.bin"], ts := ⟨2025, 1, 2, 3, 4, 5⟩,
    backupDir := "/backups",
    dirFiles := [⟨"astrbot_backup_20240101_000000.zip", 1⟩,
                 ⟨"astrbot_backup_20240102_000000.zip", 2⟩],
    newMtime := 100, archSize := 10, maxBackups := 1,
    failure := some (.atStat "stat failed") }

theorem toList_append (s t : String) : (s ++ t).toList = s.toList ++ t.toList :=
  String.data_append s t

theorem listIsPre_append_self (l r : List Char) : listIsPre l (l ++ r) = true := by
  induction l with
  | nil => rfl
  | cons a as ih => simp [listIsPre, ih]

theorem revDotDist_zip (l : List Char) :
    revDotDist ('p' :: 'i' :: 'z' :: '.' :: l) = some 3 := rfl

/-- Appending the literal `".zip"` to a nonempty name gives a path whose
`suffix` is `".zip"`, whatever the name contains. -/
theorem fileSuffix_append_zip (s : String) (h : s.toList ≠ []) :
    fileSuffix (s ++ ".zip") = ".zip" := by
  have hl : (s ++ ".zip").toList = s.toList ++ ['.', 'z', 'i', 'p'] := toList_append s ".zip"
  have hrev : (s ++ ".zip").toList.reverse = 'p' :: 'i' :: 'z' :: '.' :: s.toList.reverse := by
    rw [hl, List.reverse_append]; rfl
  have hpos : 0 < s.toList.length := List.length_pos.mpr h
  have hlen : (s ++ ".zip").toList.length = s.toList.length + 4 := by
    rw [hl, List.length_append]; rfl
  rw [fileSuffix, hrev, revDotDist_zip]
  dsimp only
  have harith : (s ++ ".zip").toList.length - 1 - 3 = s.toList.length := by omega
  rw [harith, if_pos ⟨hpos, by norm_num⟩, hl, List.drop_left]

/-- Whatever the timestamp, `_generate_backup_filename` produces a name
that satisfies the self-exclusion test of line 112. -/
theorem matches_backup_name_generate (d : DateTime6) :
    matches_backup_name (generate_backup_filename d) = true := by
  have hassoc : generate_backup_filename d = ("astrbot_backup_" ++ strftime_ts d) ++ ".zip" := by
    rw [generate_backup_filename, String.append_assoc]
  have hne : ("astrbot_backup_" ++ strftime_ts d).toList ≠ [] := by
    rw [toList_append]
    exact List.append_ne_nil_of_left_ne_nil (by decide) _
  rw [matches_backup_name, hassoc, Bool.and_eq_true]
  constructor
  · rw [toList_append, toList_append, List.append_assoc]
    exact listIsPre_append_self _ _
  · rw [fileSuffix_append_zip _ hne]
    rfl

/-- Every entry produced by the walk of surviving subdirectories has only
non-excluded directory components: the in-place `dirs` filter of line 104
prunes an excluded directory before it is descended into, so no path
through one is ever generated. -/
theorem walkSubs_clean :
    ∀ (ts : List FSTree), ∀ e ∈ walkSubs ts, ∀ d ∈ e.1, should_exclude d = false
  | [], e, he, d, hd => by simp [walkSubs] at he
  | (FSTree.dir n subs files) :: ts, e, he, d, hd => by
    rw [walkSubs] at he
    rcases List.mem_append.mp he with h1 | h2
    · by_cases hex : should_exclude (FSTree.name (FSTree.dir n subs files)) = true
      · rw [if_pos hex] at h1
        simp at h1
      · rw [if_neg hex] at h1
        rcases List.mem_map.mp h1 with ⟨e', he', rfl⟩
        rcases List.mem_cons.mp hd with rfl | hd'
        · exact Bool.not_eq_true _ ▸ hex
        · rw [walkEntries] at he'
          rcases List.mem_append.mp he' with hf | hs
          · rcases List.mem_map.mp hf with ⟨f, _, rfl⟩
            simp at hd'
          · exact walkSubs_clean subs e' hs d hd'
    · exact walkSubs_clean ts e h2 d hd

/-- Every entry of the walk from the root has only non-excluded directory
components (the root's own files have no directory component at all). -/
theorem walkEntries_clean (t : FSTree) :
    ∀ e ∈ walkEntries t, ∀ d ∈ e.1, should_exclude d = false := by
  obtain ⟨n, subs, files⟩ := t
  intro e he d hd
  rw [walkEntries] at he
  rcases List.mem_append.mp he with hf | hs
  · rcases List.mem_map.mp hf with ⟨f, _, rfl⟩
    simp at hd
  · exact walkSubs_clean subs e hs d hd

/-- Each name in the default exclusion-directory list is itself excluded by
`_should_exclude`. -/
theorem should_exclude_of_mem_default (d : String) (h : d ∈ default_exclude_dirs) :
    should_exclude d = true := by
  simp only [default_exclude_dirs, List.mem_cons, List.not_mem_nil, or_false] at h
  rcases h with rfl | rfl | rfl | rfl <;> decide

/-- C1: For every produced archive, no entry corresponds to a file lying
under a subtree rooted at a directory whose name is in the configured
exclusion-directory set, and no entry corresponds to a file whose suffix is
in the excluded-suffix set; the build's directory walk filters excluded
directories before descending into them (an excluded subdirectory
contributes nothing to the walk). -/
theorem c1_walk_exclusions :
    (∀ (t : FSTree), ∀ e ∈ backup_entries t,
        (∀ d ∈ e.1, d ∉ default_exclude_dirs) ∧ fileSuffix e.2 ∉ excluded_suffixes) ∧
    (∀ (sub : FSTree) (ts : List FSTree), should_exclude sub.name = true →
        walkSubs (sub :: ts) = walkSubs ts) := by
  constructor
  · intro t e he
    have hmem := List.mem_filter.mp he
    have h2 := hmem.2
    rw [Bool.and_eq_true] at h2
    constructor
    · intro d hd hdin
      have hclean := walkEntries_clean t e hmem.1 d hd
      rw [should_exclude_of_mem_default d hdin] at hclean
      exact absurd hclean (by decide)
    · intro hsuf
      have h := h2.1
      rw [Bool.not_eq_eq_eq_not, Bool.not_true, decide_eq_false_iff_not] at h
      exact h hsuf
  · intro sub ts h
    rw [walkSubs, if_pos h, List.nil_append]

theorem c1_witness :
    (([] : List String), "main.bin") ∈ backup_entries exTreeC1 ∧
    ((∀ d ∈ ([] : List String), d ∉ default_exclude_dirs) ∧
      fileSuffix "main.bin" ∉ excluded_suffixes) :=
  ⟨by decide, c1_walk_exclusions.1 exTreeC1 ([], "main.bin") (by decide)⟩

/-- C2: For every invocation of the archive build, no file whose name
matches the backup naming convention (head `astrbot_backup_`, suffix
`.zip`) is written as an entry into the produced archive; in particular the
archive's own filename (generated for any timestamp) never appears as an
entry inside itself. -/
theorem c2_self_exclusion (t : FSTree) (d : DateTime6) :
    ∀ e ∈ backup_entries t,
      matches_backup_name e.2 = false ∧ e.2 ≠ generate_backup_filename d := by
  intro e he
  have hmem := List.mem_filter.mp he
  have h2 := hmem.2
  rw [Bool.and_eq_true] at h2
  have hm : matches_backup_name e.2 = false := by
    have h := h2.2
    rw [Bool.not_eq_eq_eq_not, Bool.not_true] at h
    exact h
  refine ⟨hm, fun heq => ?_⟩
  rw [heq, matches_backup_name_generate d] at hm
  exact absurd hm (by decide)

theorem c2_witness :
    matches_backup_name "data.bin" = false ∧
    "data.bin" ≠ generate_backup_filename ⟨2025, 10, 12, 3, 4, 5⟩ :=
  c2_self_exclusion exTreeC2 ⟨2025, 10, 12, 3, 4, 5⟩ ([], "data.bin") (by decide)

theorem sort_desc_perm (fs : List BFile) : List.Perm (sort_desc fs) fs :=
  List.perm_insertionSort mtimeGe fs

theorem sort_desc_sorted (fs : List BFile) : List.Pairwise mtimeGe (sort_desc fs) :=
  List.sorted_insertionSort mtimeGe fs

/-- When the cap is positive and exceeded, the unlink trace of
`_cleanup_old_backups` is exactly `backup_files[max_backups:]` of the
descending-sorted matching files. -/
theorem cleanup_drop (dirFiles : List BFile) (K : ℕ) (hK : 0 < K)
    (hN : K < (sort_desc (dirFiles.filter (fun f => globMatch f.name))).length) :
    (cleanup_old_backups (K : ℤ) dirFiles).1
      = (sort_desc (dirFiles.filter (fun f => globMatch f.name))).drop K := by
  rw [cleanup_old_backups, if_neg (by omega), if_pos (by exact_mod_cast hN)]
  simp

/-- C3: If the destination directory contains `N` files matching the
archive naming convention with pairwise distinct modification times, and
`0 < K < N`, then pruning with `max_backups = K` deletes exactly `N - K`
files, the deleted files together with the `K` first files of the
descending-by-mtime order are exactly the matching files, and every
surviving file is strictly more recently modified than every deleted
file. -/
theorem c3_retention (dirFiles : List BFile) (K : ℕ) (hK : 0 < K)
    (hdist : (dirFiles.filter (fun f => globMatch f.name)).Pairwise
      (fun a b => a.mtime ≠ b.mtime))
    (hN : K < (dirFiles.filter (fun f => globMatch f.name)).length) :
    (cleanup_old_backups (K : ℤ) dirFiles).1.length
        = (dirFiles.filter (fun f => globMatch f.name)).length - K ∧
    List.Perm
      ((sort_desc (dirFiles.filter (fun f => globMatch f.name))).take K
        ++ (cleanup_old_backups (K : ℤ) dirFiles).1)
      (dirFiles.filter (fun f => globMatch f.name)) ∧
    ∀ f ∈ (sort_desc (dirFiles.filter (fun f => globMatch f.name))).take K,
      ∀ g ∈ (cleanup_old_backups (K : ℤ) dirFiles).1, g.mtime < f.mtime := by
  have hperm := sort_desc_perm (dirFiles.filter (fun f => globMatch f.name))
  have hlen := hperm.length_eq
  have hN' : K < (sort_desc (dirFiles.filter (fun f => globMatch f.name))).length := by
    omega
  have hdel := cleanup_drop dirFiles K hK hN'
  have hstrict : List.Pairwise (fun a b : BFile => b.mtime < a.mtime)
      (sort_desc (dirFiles.filter (fun f => globMatch f.name))) := by
    have hne : List.Pairwise (fun a b : BFile => a.mtime ≠ b.mtime)
        (sort_desc (dirFiles.filter (fun f => globMatch f.name))) :=
      (hperm.pairwise_iff (fun h => h.symm)).mpr hdist
    exact ((sort_desc_sorted _).and hne).imp
      (fun h => lt_of_le_of_ne h.1 (Ne.symm h.2))
  refine ⟨?_, ?_, ?_⟩
  · rw [hdel, List.length_drop, hlen]
  · rw [hdel, List.take_append_drop]
    exact hperm
  · intro f hf g hg
    rw [hdel] at hg
    have := List.pairwise_append.mp
      ((List.take_append_drop K (sort_desc (dirFiles.filter (fun f => globMatch f.name)))).symm
        ▸ hstrict)
    exact this.2.2 f hf g hg

theorem c3_witness :
    (cleanup_old_backups ((1 : ℕ) : ℤ) exFilesC3).1.length
        = (exFilesC3.filter (fun f => globMatch f.name)).length - 1 ∧
    List.Perm
      ((sort_desc (exFilesC3.filter (fun f => globMatch f.name))).take 1
        ++ (cleanup_old_backups ((1 : ℕ) : ℤ) exFilesC3).1)
      (exFilesC3.filter (fun f => globMatch f.name)) ∧
    ∀ f ∈ (sort_desc (exFilesC3.filter (fun f => globMatch f.name))).take 1,
      ∀ g ∈ (cleanup_old_backups ((1 : ℕ) : ℤ) exFilesC3).1, g.mtime < f.mtime :=
  c3_retention exFilesC3 1 (by decide) (by decide) (by decide)

/-- C4: Pruning deletes only files matching the archive naming convention,
never deletes more than `count - max_backups` files (truncated subtraction:
when the cap is not exceeded nothing is deleted), and whenever
`max_backups ≤ 0` it deletes no file at all. -/
theorem c4_retention_invariants (maxB : ℤ) (dirFiles : List BFile) :
    (maxB ≤ 0 → (cleanup_old_backups maxB dirFiles).1 = []) ∧
    (cleanup_old_backups maxB dirFiles).1.length
        ≤ (dirFiles.filter (fun f => globMatch f.name)).length - maxB.toNat ∧
    ∀ g ∈ (cleanup_old_backups maxB dirFiles).1, globMatch g.name = true := by
  have hperm := sort_desc_perm (dirFiles.filter (fun f => globMatch f.name))
  have hlen := hperm.length_eq
  by_cases h : maxB ≤ 0
  · refine ⟨fun _ => ?_, ?_, ?_⟩ <;> simp [cleanup_old_backups, h]
  · by_cases h2 : maxB < ((sort_desc (dirFiles.filter (fun f => globMatch f.name))).length : ℤ)
    · have hdel : (cleanup_old_backups maxB dirFiles).1
          = (sort_desc (dirFiles.filter (fun f => globMatch f.name))).drop maxB.toNat := by
        rw [cleanup_old_backups, if_neg h, if_pos h2]
      refine ⟨fun hc => absurd hc h, ?_, ?_⟩
      · rw [hdel, List.length_drop, hlen]
      · intro g hg
        rw [hdel] at hg
        have hmem : g ∈ dirFiles.filter (fun f => globMatch f.name) :=
          hperm.mem_iff.mp (List.mem_of_mem_drop hg)
        exact (List.mem_filter.mp hmem).2
    · refine ⟨fun hc => absurd hc h, ?_, ?_⟩ <;>
        simp [cleanup_old_backups, if_neg h, if_neg h2]

theorem c4_witness :
    (((0 : ℤ) ≤ 0 → (cleanup_old_backups 0 exFilesC3).1 = []) ∧
    (cleanup_old_backups 0 exFilesC3).1.length
        ≤ (exFilesC3.filter (fun f => globMatch f.name)).length - (0 : ℤ).toNat ∧
    ∀ g ∈ (cleanup_old_backups 0 exFilesC3).1, globMatch g.name = true) ∧
    (cleanup_old_backups 0 exFilesC3).1 = [] :=
  ⟨c4_retention_invariants 0 exFilesC3,
   (c4_retention_invariants 0 exFilesC3).1 (by decide)⟩

/-- C7 counterexample: in the spec's own scenario (7 convention-named files
with distinct modification times, `max_backups = 5`) the prune operation
deletes files, yet its return value is `None` — `_cleanup_old_backups` has
no `return expr` statement — so it does not return the ordered sequence of
deleted paths as the claim states. -/
theorem c7_counterexample :
    (cleanup_old_backups 5 exFilesC7).2 = none ∧
    (cleanup_old_backups 5 exFilesC7).1 ≠ [] := by decide

/-- C7 (amended): with 7 convention-named files of distinct modification
times and `max_backups = 5`, pruning unlinks exactly the 2 oldest files, in
descending-recency order, but the function returns `None` rather than the
sequence of deleted paths. -/
theorem c7_prune_scenario :
    (cleanup_old_backups 5 exFilesC7).1
      = [⟨"astrbot_backup_20250102_000000.zip", 2⟩,
         ⟨"astrbot_backup_20250101_000000.zip", 1⟩] ∧
    (cleanup_old_backups 5 exFilesC7).2 = none := by decide

theorem roundHalfEven_nonneg (q : ℚ) (h : 0 ≤ q) : 0 ≤ roundHalfEven q := by
  have hf : (0 : ℤ) ≤ ⌊q⌋ := Int.floor_nonneg.mpr h
  rw [roundHalfEven]
  split_ifs <;> omega

theorem round2_nonneg (q : ℚ) (h : 0 ≤ q) : 0 ≤ round2 q := by
  rw [round2]
  have h1 := roundHalfEven_nonneg (q * 100) (by positivity)
  have h2 : (0 : ℚ) ≤ (roundHalfEven (q * 100) : ℚ) := by exact_mod_cast h1
  positivity

theorem round2_three_halves : round2 ((1572864 : ℚ) / (1024 * 1024)) = 3 / 2 := by
  have h1 : ((1572864 : ℚ) / (1024 * 1024)) = 3 / 2 := by norm_num
  have h2 : ((3 : ℚ) / 2 * 100) = ((150 : ℤ) : ℚ) := by norm_num
  rw [round2, h1, h2, roundHalfEven, Int.floor_intCast]
  norm_num

/-- C5 counterexample: a build that fails mid-write returns success=false,
a half-written archive with one entry exists — and the archive file is
still on disk after the call: the `except` branch (lines 133-138) never
removes it, contradicting the claim's "best-effort removes the partial
archive file". -/
theorem c5_counterexample :
    (create_backup exInputC5).result.success = false ∧
    (create_backup exInputC5).written ≠ [] ∧
    (create_backup exInputC5).archiveAfter = true := by decide

/-- C5 (amended): for every failure raised during any step of the archive
build, the build returns a result with success=false carrying the
exception's message; but the half-written archive file, when one exists
(failure during the write loop or at the final stat), is left on disk — it
is not removed. -/
theorem c5_failure_result (inp : BuildInput) (fp : FailPoint)
    (h : inp.failure = some fp) :
    (create_backup inp).result.success = false ∧
    (create_backup inp).result.error = some fp.msg ∧
    (∀ k m, fp = FailPoint.duringWrite k m → (create_backup inp).archiveAfter = true) ∧
    (∀ m, fp = FailPoint.atStat m → (create_backup inp).archiveAfter = true) := by
  cases fp <;> simp [create_backup, h, failResult, FailPoint.msg]

theorem c5_witness :
    (create_backup exInputC5).result.success = false ∧
    (create_backup exInputC5).result.error
        = some (FailPoint.duringWrite 1 "No space left on device").msg ∧
    (∀ k m, FailPoint.duringWrite 1 "No space left on device" = FailPoint.duringWrite k m →
        (create_backup exInputC5).archiveAfter = true) ∧
    (∀ m, FailPoint.duringWrite 1 "No space left on device" = FailPoint.atStat m →
        (create_backup exInputC5).archiveAfter = true) :=
  c5_failure_result exInputC5 (FailPoint.duringWrite 1 "No space left on device") rfl

/-- C6 (amended): every backup attempt produces a result where exactly one
of (the archive path together with a nonnegative size value — the byte
count converted to megabytes and rounded to two decimals) or an error
message is present, according to whether success is true or false. -/
theorem c6_result_shape (inp : BuildInput) :
    ((create_backup inp).result.success = true →
      (create_backup inp).result.path.isSome = true ∧
      (∃ q, (create_backup inp).result.size_mb = some q ∧ 0 ≤ q) ∧
      (create_backup inp).result.error = none) ∧
    ((create_backup inp).result.success = false →
      (create_backup inp).result.error.isSome = true ∧
      (create_backup inp).result.path = none ∧
      (create_backup inp).result.size_mb = none ∧
      (create_backup inp).result.filename = none) := by
  rcases hf : inp.failure with - | fp
  · constructor
    · intro _
      refine ⟨?_, ⟨round2 ((inp.archSize : ℚ) / (1024 * 1024)), ?_, ?_⟩, ?_⟩
      · simp [create_backup, hf]
      · simp [create_backup, hf]
      · exact round2_nonneg _ (by positivity)
      · simp [create_backup, hf]
    · intro hs
      rw [show (create_backup inp).result.success = true by simp [create_backup, hf]] at hs
      exact absurd hs (by decide)
  · cases fp <;>
    · constructor
      · intro hs
        rw [show (create_backup inp).result.success = false by
          simp [create_backup, hf, failResult]] at hs
        exact absurd hs (by decide)
      · intro _
        refine ⟨?_, ?_, ?_, ?_⟩ <;> simp [create_backup, hf, failResult]

/-- C6 counterexample: a successful build whose archive is 1572864 bytes
returns `size_mb = 1.5` — the megabyte conversion rounded to two decimals —
which is not an integer at all, let alone the integer byte size 1572864
the claim asserts the result carries. -/
theorem c6_counterexample :
    (create_backup exInputC6).result.success = true ∧
    (create_backup exInputC6).result.size_mb = some ((3 : ℚ) / 2) ∧
    (∀ n : ℤ, ((3 : ℚ) / 2) ≠ (n : ℚ)) ∧ ((3 : ℚ) / 2) ≠ (1572864 : ℚ) := by
  refine ⟨rfl, ?_, ?_, by norm_num⟩
  · have hc : ((1572864 : ℕ) : ℚ) = (1572864 : ℚ) := by norm_num
    simp only [create_backup, exInputC6]
    rw [hc, round2_three_halves]
  · intro n hn
    have h2 : (3 : ℚ) = (n : ℚ) * 2 := by
      field_simp at hn
      linarith
    have h3 : (3 : ℤ) = n * 2 := by exact_mod_cast h2
    omega

theorem c6_witness :
    (create_backup exInputC6).result.path.isSome = true ∧
    (create_backup exInputC6).result.error = none :=
  ⟨((c6_result_shape exInputC6).1 (by decide)).1,
   ((c6_result_shape exInputC6).1 (by decide)).2.2⟩

/-- C10: retention pruning runs only after the archive has been completely
written and statted: a backup attempt that fails at any point deletes no
pre-existing archive file. -/
theorem c10_no_prune_on_failure (inp : BuildInput) (fp : FailPoint)
    (h : inp.failure = some fp) :
    (create_backup inp).deletedOld = [] := by
  cases fp <;> simp [create_backup, h]

theorem c10_witness : (create_backup exInputC10).deletedOld = [] :=
  c10_no_prune_on_failure exInputC10 (FailPoint.atStat "stat failed") rfl

theorem sumSleep_append (a b : List SchedEvent) :
    sumSleep (a ++ b) = sumSleep a + sumSleep b := by
  induction a with
  | nil => simp [sumSleep]
  | cons e es ih => cases e <;> simp [sumSleep, ih, Nat.add_assoc]

theorem waitChunks_mem (stop : Nat → Bool) (k n : Nat) :
    ∀ e ∈ (waitChunks stop k n).1, e = SchedEvent.slept 60 := by
  induction n generalizing k with
  | zero => intro e he; simp [waitChunks] at he
  | succ n ih =>
    intro e he
    rw [waitChunks] at he
    by_cases h : stop k = true
    · rw [if_pos h] at he; simp at he
    · rw [if_neg h] at he
      rcases List.mem_cons.mp he with rfl | h2
      · rfl
      · exact ih (k + 1) e h2

theorem waitChunks_sum_le (stop : Nat → Bool) (k n : Nat) :
    sumSleep (waitChunks stop k n).1 ≤ 60 * n := by
  induction n generalizing k with
  | zero => simp [waitChunks, sumSleep]
  | succ n ih =>
    rw [waitChunks]
    by_cases h : stop k = true
    · simp [h, sumSleep]
    · rw [if_neg h]
      have := ih (k + 1)
      simp only [sumSleep]
      omega

/-- Once the stop flag is set from check index `K` onward, the 60-second
sleep loop performs at most `K - k` further chunks from check index `k`. -/
theorem waitChunks_sum_stop (stop : Nat → Bool) (K : Nat)
    (hs : ∀ i, K ≤ i → stop i = true) :
    ∀ (n k : Nat), sumSleep (waitChunks stop k n).1 ≤ 60 * (K - k) := by
  intro n
  induction n with
  | zero => intro k; simp [waitChunks, sumSleep]
  | succ n ih =>
    intro k
    rw [waitChunks]
    by_cases h : stop k = true
    · simp [h, sumSleep]
    · have hk : k < K := by
        by_contra hkk
        exact h (hs k (by omega))
      rw [if_neg h]
      have := ih (k + 1)
      simp only [sumSleep]
      omega

/-- C9: while in the waiting phase the loop sleeps only in increments of at
most 60 seconds; if the stop flag is set from check index `K` onward, the
total time spent asleep in the phase is at most `60·K + 59` seconds (i.e.
at most one increment beyond the checks made before the stop), and if the
stop arrives no later than the final check, the phase exits by observing
the flag (`break`), however long the total wait would have been. -/
theorem c9_bounded_wait (w K : Nat) (stop : Nat → Bool)
    (hstop : ∀ i, K ≤ i → stop i = true) :
    (∀ s, SchedEvent.slept s ∈ (waitPhase w stop).1 → s ≤ 60) ∧
    sumSleep (waitPhase w stop).1 ≤ 60 * K + 59 ∧
    (K ≤ w / 60 → (waitPhase w stop).2 = true) := by
  refine ⟨?_, ?_, ?_⟩
  · intro s hs
    rw [waitPhase] at hs
    by_cases h1 : (waitChunks stop 0 (w / 60)).2 = true
    · rw [if_pos h1] at hs
      injection waitChunks_mem stop 0 (w / 60) _ hs with h
      omega
    · rw [if_neg h1] at hs
      by_cases h2 : stop (w / 60) = true
      · rw [if_pos h2] at hs
        injection waitChunks_mem stop 0 (w / 60) _ hs with h
        omega
      · rw [if_neg h2] at hs
        rcases List.mem_append.mp hs with ha | hb
        · injection waitChunks_mem stop 0 (w / 60) _ ha with h
          omega
        · injection List.mem_singleton.mp hb with h
          omega
  · rw [waitPhase]
    by_cases h1 : (waitChunks stop 0 (w / 60)).2 = true
    · rw [if_pos h1]
      have := waitChunks_sum_stop stop K hstop (w / 60) 0
      dsimp only
      omega
    · rw [if_neg h1]
      by_cases h2 : stop (w / 60) = true
      · rw [if_pos h2]
        have := waitChunks_sum_stop stop K hstop (w / 60) 0
        dsimp only
        omega
      · rw [if_neg h2]
        have hK : w / 60 < K := by
          by_contra hc
          exact h2 (hstop _ (by omega))
        have hsum := waitChunks_sum_le stop 0 (w / 60)
        dsimp only
        rw [sumSleep_append]
        have hone : sumSleep [SchedEvent.slept (w % 60)] = w % 60 := by
          simp [sumSleep]
        rw [hone]
        omega
  · intro hK
    rw [waitPhase]
    by_cases h1 : (waitChunks stop 0 (w / 60)).2 = true
    · rw [if_pos h1]
    · rw [if_neg h1, if_pos (hstop _ hK)]

theorem c9_witness :
    (∀ s, SchedEvent.slept s ∈ (waitPhase 150 (fun i => decide (1 ≤ i))).1 → s ≤ 60) ∧
    sumSleep (waitPhase 150 (fun i => decide (1 ≤ i))).1 ≤ 60 * 1 + 59 ∧
    (1 ≤ 150 / 60 → (waitPhase 150 (fun i => decide (1 ≤ i))).2 = true) :=
  c9_bounded_wait 150 1 (fun i => decide (1 ≤ i)) (fun _ h => decide_eq_true h)

/-- C8: in every iteration whose croniter computation raises (malformed
cron expression), the loop lands in the `except` branch, sleeps the fixed
3600-second cooldown, and continues; run for any number of iterations with
the stop flag unset, the loop produces exactly one cooldown sleep per
iteration and never exits. -/
theorem c8_cron_failure_continues (env : Nat → IterEnv)
    (hstop : ∀ j, (env j).stopAtTop = false)
    (hcron : ∀ j, (env j).cron = none) (n i : Nat) :
    scheduler_loop env i n = (List.replicate n (SchedEvent.slept 3600), false) := by
  induction n generalizing i with
  | zero => rfl
  | succ n ih =>
    rw [scheduler_loop]
    simp [hstop i, hcron i, ih (i + 1), List.replicate_succ]

theorem c8_witness :
    scheduler_loop (fun _ => ⟨false, none, fun _ => false⟩) 0 3
      = (List.replicate 3 (SchedEvent.slept 3600), false) :=
  c8_cron_failure_continues (fun _ => ⟨false, none, fun _ => false⟩)
    (fun _ => rfl) (fun _ => rfl) 3 0
